import Mathlib

/-!
Verification of the Arc-event-alerts repository (src/event_digest.py and
src/harvester_check.py) against its natural-language specification.

Modelling conventions:
* JSON-like Python values are the inductive `PyVal`; Python dicts are
  association lists with unique keys, `dict.get` is `dictGet` (missing key
  yields `PyVal.none`, matching Python's `None` default).
* Absolute UTC instants are `Int` epoch seconds.  Python keeps microsecond
  precision; no verified claim depends on sub-second values, and a comment
  marks each spot where the model truncates.
* Python exceptions that escape a function are modelled with `Except Unit`:
  `.error ()` is an uncaught exception, `.ok` a normal return.
* External collaborators (the stdlib ISO-8601 parser inside a try/except,
  the zoneinfo-based local-time formatter, the SHA-256 hex digest) are
  universally quantified function parameters: every theorem holds for any
  instantiation of them.
-/

namespace ArcEvents

/-- JSON-like values as they appear in API payloads and the state file. -/
inductive PyVal where
  | none
  | bool (b : Bool)
  | int (n : Int)
  | str (s : String)
  | list (xs : List PyVal)
  | dict (kvs : List (String × PyVal))

/-- Python truthiness (`bool(v)`) on `PyVal`: `None`, `False`, `0`, empty
string and empty containers are falsy. -/
def pyTruthy : PyVal → Bool
  | .none => false
  | .bool b => b
  | .int n => n != 0
  | .str s => !s.isEmpty
  | .list xs => !xs.isEmpty
  | .dict kvs => !kvs.isEmpty

/-- The single-quote character used by Python repr of strings. -/
def pyQuoteChar : Char := Char.ofNat 39

/-- Escape one character the way Python repr of a single-quoted string does
for the backslash and the quote; other characters are kept as-is (Python
additionally escapes control characters, which no claim exercises). -/
def pyEscapeChar (c : Char) : String :=
  if c = Char.ofNat 92 then
    String.singleton (Char.ofNat 92) ++ String.singleton (Char.ofNat 92)
  else if c = pyQuoteChar then
    String.singleton (Char.ofNat 92) ++ String.singleton pyQuoteChar
  else
    String.singleton c

/-- Python repr of a string: single-quoted with escaping (Python switches to
double quotes when the string holds a quote but no double quote; that corner
is not exercised by any claim and the single-quoted form is used throughout). -/
def pyQuote (s : String) : String :=
  String.singleton pyQuoteChar ++ String.join (s.toList.map pyEscapeChar)
    ++ String.singleton pyQuoteChar

mutual
/-- Python `repr` on `PyVal` (scalars exactly; containers recursively). -/
def pyRepr : PyVal → String
  | .none => "None"
  | .bool true => "True"
  | .bool false => "False"
  | .int n => toString n
  | .str s => pyQuote s
  | .list xs => "[" ++ pyReprList xs ++ "]"
  | .dict kvs => "\x7b" ++ pyReprDict kvs ++ "\x7d"

/-- Comma-separated reprs of a list's elements. -/
def pyReprList : List PyVal → String
  | [] => ""
  | [x] => pyRepr x
  | x :: y :: rest => pyRepr x ++ ", " ++ pyReprList (y :: rest)

/-- Comma-separated `key: value` reprs of a dict's entries. -/
def pyReprDict : List (String × PyVal) → String
  | [] => ""
  | [(k, v)] => pyQuote k ++ ": " ++ pyRepr v
  | (k, v) :: x :: rest => pyQuote k ++ ": " ++ pyRepr v ++ ", " ++ pyReprDict (x :: rest)
end

/-- Python `str(v)`: the string itself for strings, `repr` otherwise
(scalars render as `None` / `True` / `False` / the decimal integer). -/
def pyStr : PyVal → String
  | .str s => s
  | v => pyRepr v

/-- Key lookup returning the first binding of `k`, distinguishing a missing
key from an explicit `None` value; used for `in`-style tests and to state
frame properties about the persisted state record.  (Python dict keys are
unique, so first-binding lookup agrees.) -/
def dictFind : List (String × PyVal) → String → Option PyVal
  | [], _ => Option.none
  | p :: rest, k => if p.1 = k then some p.2 else dictFind rest k

/-- `d.get(k)` on a Python dict: the value bound to `k`, else `None`. -/
def dictGet (kvs : List (String × PyVal)) (k : String) : PyVal :=
  match dictFind kvs k with
  | some v => v
  | Option.none => .none

/-- `d[k] = v` on a Python dict: replace the value of an existing binding in
place, else append a new binding (Python preserves insertion order). -/
def pySetItem : List (String × PyVal) → String → PyVal → List (String × PyVal)
  | [], k, v => [(k, v)]
  | (k0, v0) :: rest, k, v =>
      if k0 = k then (k0, v) :: rest else (k0, v0) :: pySetItem rest k v

/-- Python `a or b`: `a` when truthy, else `b`. -/
def pyOr (a b : PyVal) : PyVal := if pyTruthy a then a else b

/-- Whether a `PyVal` is Python `None` (the `is None` test). -/
def isNoneV : PyVal → Bool
  | .none => true
  | _ => false

/-- Earliest epoch second a Python `datetime` can represent
(0001-01-01T00:00:00Z); `datetime.fromtimestamp` raises below it. -/
def minEpoch : Int := -62135596800

/-- Latest whole epoch second a Python `datetime` can represent
(9999-12-31T23:59:59Z); `datetime.fromtimestamp` raises above it. -/
def maxEpoch : Int := 253402300799

/-- The ms-vs-s disambiguation of `parse_dt` (src/event_digest.py lines
44-48): a number above 10^12 is taken as epoch milliseconds and divided by
1000.  Python divides by `1000.0` keeping sub-second precision; the model
truncates to whole seconds, which no claim depends on. -/
def msAdjust (n : Int) : Int := if n > 1000000000000 then n / 1000 else n

/-- Replace a trailing `Z` by `+00:00` (src/event_digest.py lines 53-54). -/
def zFix (s : String) : String :=
  if s.endsWith "Z" then s.dropRight 1 ++ "+00:00" else s

/-- `parse_dt` from src/event_digest.py lines 33-64.  The `iso` parameter
stands for `datetime.fromisoformat` composed with the UTC normalization, all
inside the source's try/except: it returns the parsed UTC instant or `none`
on any failure, so the string branch never raises.  The numeric branch calls
`datetime.fromtimestamp` outside any try/except, so an out-of-range epoch
raises — modelled as `.error ()`.  Python `bool` is a subtype of `int`, so
`True`/`False` take the numeric branch as 1/0. -/
def parse_dt (iso : String → Option Int) : PyVal → Except Unit (Option Int)
  | .none => .ok Option.none
  | .int n =>
      let secs := msAdjust n
      if secs < minEpoch ∨ maxEpoch < secs then .error () else .ok (some secs)
  | .bool b => .ok (some (if b then 1 else 0))
  | .str s => .ok (iso (zFix s.trim))
  | .list _ => .ok Option.none
  | .dict _ => .ok Option.none

/-- One normalized occurrence (the dict built at src/event_digest.py lines
155-164).  The source also stores the raw schedule item under `"raw"`; it is
read nowhere afterwards and is omitted.  `endT` is the source's `end` field
(`end` is reserved in Lean). -/
structure Occ where
  event : String
  map : String
  active : Option Bool
  start : Option Int
  endT : Option Int
deriving DecidableEq

/-- The event-name fallback chain (src/event_digest.py line 106):
`ev.get("name") or ev.get("event") or ev.get("title") or "Unknown Event"`. -/
def eventNameVal (ev : List (String × PyVal)) : PyVal :=
  pyOr (dictGet ev "name")
    (pyOr (dictGet ev "event") (pyOr (dictGet ev "title") (.str "Unknown Event")))

/-- The map-name fallback chain (src/event_digest.py lines 124-130). -/
def mapRaw (ev item : List (String × PyVal)) : PyVal :=
  pyOr (dictGet item "mapName")
    (pyOr (dictGet item "map")
      (pyOr (dictGet item "location")
        (pyOr (dictGet item "zone") (dictGet ev "maps"))))

/-- Map-name resolution with the nested-object fix (src/event_digest.py
lines 131-132): a dict-valued map resolves to its `name` or `id`. -/
def mapFixed (ev item : List (String × PyVal)) : PyVal :=
  match mapRaw ev item with
  | .dict d => pyOr (dictGet d "name") (dictGet d "id")
  | v => v

/-- The active-flag fallback chain (src/event_digest.py lines 135-139):
`active`, then `isActive`, then `currentlyActive`, each tried when the
previous one `is None`. -/
def activeRaw (item : List (String × PyVal)) : PyVal :=
  let a := dictGet item "active"
  let a := if isNoneV a then dictGet item "isActive" else a
  let a := if isNoneV a then dictGet item "currentlyActive" else a
  a

/-- A short-circuit `parse_dt(...) or parse_dt(...) or ...` chain over the
given keys (src/event_digest.py lines 142-153): Python evaluates left to
right and stops at the first truthy (= non-None) parse, so later keys are
not parsed — and cannot raise — once one succeeds. -/
def parseChain (iso : String → Option Int) (item : List (String × PyVal)) :
    List String → Except Unit (Option Int)
  | [] => .ok Option.none
  | k :: rest =>
      match parse_dt iso (dictGet item k) with
      | .error e => .error e
      | .ok (some v) => .ok (some v)
      | .ok Option.none => parseChain iso item rest

/-- Build one occurrence from a schedule item (src/event_digest.py lines
124-164).  `.error ()` propagates an uncaught `parse_dt` exception. -/
def occOfItem (iso : String → Option Int) (ev item : List (String × PyVal)) :
    Except Unit Occ :=
  match parseChain iso item ["start", "startAt", "startsAt", "nextStart"] with
  | .error e => .error e
  | .ok s =>
      match parseChain iso item ["end", "endAt", "endsAt", "nextEnd"] with
      | .error e => .error e
      | .ok e2 =>
          .ok
            { event := pyStr (eventNameVal ev)
              map := if pyTruthy (mapFixed ev item) then pyStr (mapFixed ev item)
                     else "Unknown Map"
              active := if isNoneV (activeRaw item) then Option.none
                        else some (pyTruthy (activeRaw item))
              start := s
              endT := e2 }

/-- The candidate container keys tried per event (src/event_digest.py line 110). -/
def candidateKeys : List String := ["maps", "instances", "schedule", "timers", "occurrences"]

/-- All list-valued candidate containers of an event, in key order
(src/event_digest.py lines 109-113): every matching key contributes. -/
def evCandidates (ev : List (String × PyVal)) : List (List PyVal) :=
  candidateKeys.filterMap fun k =>
    match dictGet ev k with
    | .list l => some l
    | _ => Option.none

/-- The containers actually iterated (src/event_digest.py lines 115-117):
the event dict itself as a single-item container when no key matched. -/
def evContainers (ev : List (String × PyVal)) : List (List PyVal) :=
  match evCandidates ev with
  | [] => [[.dict ev]]
  | cs => cs

/-- The inner item loop (src/event_digest.py lines 120-164): non-dict items
are skipped, each dict item yields one occurrence. -/
def itemsOccs (iso : String → Option Int) (ev : List (String × PyVal)) :
    List PyVal → Except Unit (List Occ)
  | [] => .ok []
  | .dict item :: rest =>
      match occOfItem iso ev item with
      | .error e => .error e
      | .ok o =>
          match itemsOccs iso ev rest with
          | .error e => .error e
          | .ok os => .ok (o :: os)
  | _ :: rest => itemsOccs iso ev rest

/-- The container loop (src/event_digest.py line 119). -/
def containersOccs (iso : String → Option Int) (ev : List (String × PyVal)) :
    List (List PyVal) → Except Unit (List Occ)
  | [] => .ok []
  | arr :: rest =>
      match itemsOccs iso ev arr with
      | .error e => .error e
      | .ok os =>
          match containersOccs iso ev rest with
          | .error e => .error e
          | .ok more => .ok (os ++ more)

/-- All occurrences contributed by one event dict. -/
def evOccs (iso : String → Option Int) (ev : List (String × PyVal)) :
    Except Unit (List Occ) :=
  containersOccs iso ev (evContainers ev)

/-- The outer event loop (src/event_digest.py lines 102-164): non-dict
entries are skipped. -/
def eventsOccs (iso : String → Option Int) : List PyVal → Except Unit (List Occ)
  | [] => .ok []
  | .dict ev :: rest =>
      match evOccs iso ev with
      | .error e => .error e
      | .ok os =>
          match eventsOccs iso rest with
          | .error e => .error e
          | .ok more => .ok (os ++ more)
  | _ :: rest => eventsOccs iso rest

/-- The dedup key (src/event_digest.py line 170).  The source keys on the
ISO rendering of the instants, which is injective on UTC instants, so keying
on the instants directly is equivalent. -/
def occKey (o : Occ) : String × String × Option Int × Option Int :=
  (o.event, o.map, o.start, o.endT)

/-- The dedup pass (src/event_digest.py lines 167-174): keep the first
occurrence per key in encounter order. -/
def dedup (seen : List (String × String × Option Int × Option Int)) :
    List Occ → List Occ
  | [] => []
  | o :: rest =>
      if occKey o ∈ seen then dedup seen rest
      else o :: dedup (occKey o :: seen) rest

/-- `extract_occurrences` from src/event_digest.py lines 87-176: a non-list
payload yields no occurrences; otherwise the event loop followed by dedup. -/
def extract_occurrences (iso : String → Option Int) (payload : PyVal) :
    Except Unit (List Occ) :=
  match payload with
  | .list evs => (eventsOccs iso evs).map (dedup [])
  | _ => .ok []

/-- The current test of `build_digest` (src/event_digest.py lines 190-194):
`active_flag is True`, or — in the `elif`, also reached when the flag is
`False` — both instants present and `start <= now <= end`. -/
def isCurrentB (o : Occ) (now : Int) : Bool :=
  if o.active = some true then true
  else
    match o.start, o.endT with
    | some s, some e => decide (s ≤ now) && decide (now ≤ e)
    | _, _ => false

/-- The sort key attached to a current occurrence (src/event_digest.py lines
198-202): `int((end - now).total_seconds())` when an end is present — exact
on whole-second instants — else the sentinel `10**9`. -/
def endsKey (o : Occ) (now : Int) : Int :=
  match o.endT with
  | some e => e - now
  | Option.none => 1000000000

/-- The current bucket in encounter order (the append side of the loop at
src/event_digest.py lines 185-202). -/
def currentPre (now : Int) : List Occ → List (Int × Occ)
  | [] => []
  | o :: rest =>
      if isCurrentB o now then (endsKey o now, o) :: currentPre now rest
      else currentPre now rest

/-- The upcoming bucket in encounter order (src/event_digest.py lines
203-207): not current, start present and strictly in the future, keyed by
`int((start - now).total_seconds())`. -/
def upcomingPre (now : Int) : List Occ → List (Int × Occ)
  | [] => []
  | o :: rest =>
      if isCurrentB o now then upcomingPre now rest
      else
        match o.start with
        | some s =>
            if now < s then (s - now, o) :: upcomingPre now rest
            else upcomingPre now rest
        | Option.none => upcomingPre now rest

/-- Insert a keyed pair after every element whose key is ≤ its own: the
insertion step of a stable ascending sort. -/
def insertSorted (a : Int × Occ) : List (Int × Occ) → List (Int × Occ)
  | [] => [a]
  | b :: rest => if b.1 ≤ a.1 then b :: insertSorted a rest else a :: b :: rest

/-- `list.sort(key=lambda x: x[0])` (src/event_digest.py lines 209-210):
Python's sort is a stable ascending sort, and every stable ascending sort
computes the same list, so this stable insertion sort is that function. -/
def sortPairs (l : List (Int × Occ)) : List (Int × Occ) :=
  l.foldl (fun acc a => insertSorted a acc) []

/-- The current bucket as rendered: sorted ascending by key. -/
def currentSorted (occs : List Occ) (now : Int) : List (Int × Occ) :=
  sortPairs (currentPre now occs)

/-- The upcoming bucket as rendered: sorted ascending by key. -/
def upcomingSorted (occs : List Occ) (now : Int) : List (Int × Occ) :=
  sortPairs (upcomingPre now occs)

/-- `fmt_in` from src/event_digest.py lines 77-84: clamp negatives to zero,
split into h/m (seconds dropped), render `in Hh Mm` or `in Mm`. -/
def fmt_in (delta : Int) : String :=
  let d := if delta < 0 then 0 else delta
  let m := d / 60
  let h := m / 60
  let m2 := m % 60
  if h = 0 then "in " ++ toString m2 ++ "m"
  else "in " ++ toString h ++ "h " ++ toString m2 ++ "m"

/-- One current line (src/event_digest.py lines 219-222).  `fmtL` stands for
`fmt_local_time`: the zoneinfo America/Chicago rendering of an instant, an
external collaborator quantified over. -/
def currentLine (fmtL : Int → String) (p : Int × Occ) : String :=
  let endStr :=
    match p.2.endT with
    | some e => "ends " ++ fmtL e ++ " (" ++ fmt_in p.1 ++ ")"
    | Option.none => "active"
  "- " ++ p.2.event ++ " (" ++ p.2.map ++ ") — " ++ endStr

/-- One upcoming line (src/event_digest.py lines 229-232). -/
def upcomingLine (fmtL : Int → String) (p : Int × Occ) : String :=
  let startStr :=
    match p.2.start with
    | some s => fmtL s ++ " (" ++ fmt_in p.1 ++ ")"
    | Option.none => "soon"
  "- " ++ p.2.event ++ " (" ++ p.2.map ++ ") — " ++ startStr

/-- The report lines (src/event_digest.py lines 212-232): fixed headers,
each section capped to its top 10 entries, `- (none)` when empty. -/
def digestLines (fmtL : Int → String) (occs : List Occ) (now : Int) : List String :=
  let current := currentSorted occs now
  let upcoming := upcomingSorted occs now
  ["**events:**", "", "**current**"]
    ++ (if current.isEmpty then ["- (none)"]
        else (current.take 10).map (currentLine fmtL))
    ++ ["", "**upcoming**"]
    ++ (if upcoming.isEmpty then ["- (none)"]
        else (upcoming.take 10).map (upcomingLine fmtL))

/-- `build_digest` from src/event_digest.py lines 179-234.  The source reads
`datetime.now(timezone.utc)` at entry; the clock reading is the explicit
`now` parameter here.  `String.trim` is Python's `.strip()` (both strip
ASCII whitespace; the report's ends never hold the exotic Unicode whitespace
where they differ). -/
def build_digest (fmtL : Int → String) (occs : List Occ) (now : Int) : String :=
  (String.intercalate "\n" (digestLines fmtL occs now)).trim

/-- Python `v == s` for a string literal `s`: true only for an equal string
(no cross-type equality between `str` and other JSON scalars). -/
def pyEqSomeStr (v : Option PyVal) (s : String) : Bool :=
  match v with
  | some (.str t) => t == s
  | _ => false

/-- The digest-script run gate (src/event_digest.py main, lines 246-255).
`h` stands for the external SHA-256 hex digest of hashlib; `sendOk` models
whether the webhook POST succeeds.  `send_discord` (lines 29-30) calls
`raise_for_status()`, so a failed delivery raises and the run aborts before
`save_state` — modelled as `.error ()`, meaning nothing was written and the
state file keeps its previous contents.  `.ok (sent, st)` means the run
completed, notified iff `sent`, and saved `st`. -/
def mainGate (h : String → String) (state : List (String × PyVal))
    (digest : String) (sendOk : Bool) : Except Unit (Bool × List (String × PyVal)) :=
  if pyEqSomeStr (dictFind state "last_digest_hash") (h digest) then
    .ok (false, state)
  else if sendOk then
    .ok (true, pySetItem state "last_digest_hash" (.str (h digest)))
  else .error ()

/-- The harvester-script run (src/harvester_check.py main, lines 33-41):
read the previously saved flag (default `False`), notify on a rising edge,
write the flag back.  Its `send` ignores the HTTP status, so the save always
happens; returns (notified, saved state). -/
def harvesterRun (state : List (String × PyVal)) (activeNow : Bool) :
    Bool × List (String × PyVal) :=
  let last := (dictFind state "harvester_active").getD (.bool false)
  (!pyTruthy last && activeNow, pySetItem state "harvester_active" (.bool activeNow))

/-- Modelled from the spec: the Window Builder (spec §4.3) is not present
under src/.  `clockTimeOnDay day hh mm` is spec §4.1's `clockTimeOnDay`,
interpreting HH:MM as a UTC wall-clock time on the given epoch day. -/
def clockTimeOnDay (day : Int) (hh mm : Nat) : Int :=
  day * 86400 + (hh : Int) * 3600 + (mm : Int) * 60

/-- Modelled from the spec: the daily-schedule expansion of one HH:MM pair
on one day (spec §4.3) with the wrap rule — if the computed end is ≤ the
computed start, add 24 hours to the end (overnight span). -/
def expandPair (day : Int) (sh sm eh em : Nat) : Int × Int :=
  let s := clockTimeOnDay day sh sm
  let e := clockTimeOnDay day eh em
  (s, if e ≤ s then e + 86400 else e)

/-! Helper lemmas about the stable sort. -/

/-- Membership through one insertion step. -/
theorem mem_insertSorted {a x : Int × Occ} {l : List (Int × Occ)} :
    x ∈ insertSorted a l ↔ x = a ∨ x ∈ l := by
  induction l with
  | nil => simp [insertSorted]
  | cons b rest ih =>
      simp only [insertSorted]
      split
      · simp only [List.mem_cons, ih]
        tauto
      · simp [List.mem_cons]

/-- One insertion step preserves ascending-by-key sortedness. -/
theorem sorted_insertSorted {a : Int × Occ} {l : List (Int × Occ)}
    (h : l.Pairwise (fun x y => x.1 ≤ y.1)) :
    (insertSorted a l).Pairwise (fun x y => x.1 ≤ y.1) := by
  induction l with
  | nil => simp [insertSorted]
  | cons b rest ih =>
      rw [List.pairwise_cons] at h
      obtain ⟨hb, hrest⟩ := h
      simp only [insertSorted]
      split
      · rename_i hba
        refine List.pairwise_cons.mpr ⟨?_, ih hrest⟩
        intro x hx
        rcases mem_insertSorted.mp hx with rfl | hx2
        · exact hba
        · exact hb x hx2
      · rename_i hba
        refine List.pairwise_cons.mpr ⟨?_, List.pairwise_cons.mpr ⟨hb, hrest⟩⟩
        intro x hx
        rcases List.mem_cons.mp hx with rfl | hx2
        · omega
        · have := hb x hx2
          omega

/-- Membership through the insertion fold. -/
theorem mem_foldl_insertSorted {x : Int × Occ} :
    ∀ (l acc : List (Int × Occ)),
      (x ∈ l.foldl (fun acc a => insertSorted a acc) acc ↔ x ∈ acc ∨ x ∈ l)
  | [], acc => by simp
  | b :: rest, acc => by
      rw [List.foldl_cons, mem_foldl_insertSorted rest, mem_insertSorted]
      simp only [List.mem_cons]
      tauto

/-- `sortPairs` is a permutation membership-wise. -/
theorem mem_sortPairs {x : Int × Occ} {l : List (Int × Occ)} :
    x ∈ sortPairs l ↔ x ∈ l := by
  rw [sortPairs, mem_foldl_insertSorted]
  simp

/-- The insertion fold keeps the accumulator sorted. -/
theorem sorted_foldl_insertSorted :
    ∀ (l acc : List (Int × Occ)), acc.Pairwise (fun x y => x.1 ≤ y.1) →
      (l.foldl (fun acc a => insertSorted a acc) acc).Pairwise (fun x y => x.1 ≤ y.1)
  | [], _, h => by simpa
  | b :: rest, acc, h => by
      rw [List.foldl_cons]
      exact sorted_foldl_insertSorted rest _ (sorted_insertSorted h)

/-- `sortPairs` output is sorted ascending by key. -/
theorem sorted_sortPairs {l : List (Int × Occ)} :
    (sortPairs l).Pairwise (fun x y => x.1 ≤ y.1) :=
  sorted_foldl_insertSorted l [] (by simp)

/-! Helper lemmas about the two buckets. -/

/-- Membership in the pre-sort current bucket. -/
theorem mem_currentPre {now k : Int} {o : Occ} :
    ∀ {occs : List Occ}, (k, o) ∈ currentPre now occs ↔
      o ∈ occs ∧ isCurrentB o now = true ∧ k = endsKey o now := by
  intro occs
  induction occs with
  | nil => simp [currentPre]
  | cons p rest ih =>
      simp only [currentPre]
      split
      · rename_i hp
        constructor
        · intro hmem
          rcases List.mem_cons.mp hmem with heq | hmem2
          · have hk := congrArg Prod.fst heq
            have ho := congrArg Prod.snd heq
            simp only at hk ho
            subst ho
            exact ⟨List.mem_cons_self _ _, hp, hk⟩
          · obtain ⟨h1, h2, h3⟩ := ih.mp hmem2
            exact ⟨List.mem_cons_of_mem _ h1, h2, h3⟩
        · rintro ⟨hmem, hcur, hk⟩
          rcases List.mem_cons.mp hmem with rfl | hmem2
          · subst hk
            exact List.mem_cons_self _ _
          · exact List.mem_cons_of_mem _ (ih.mpr ⟨hmem2, hcur, hk⟩)
      · rename_i hp
        rw [ih]
        constructor
        · rintro ⟨h1, h2, h3⟩
          exact ⟨List.mem_cons_of_mem _ h1, h2, h3⟩
        · rintro ⟨hmem, hcur, hk⟩
          rcases List.mem_cons.mp hmem with rfl | hmem2
          · exact absurd hcur hp
          · exact ⟨hmem2, hcur, hk⟩

/-- Membership in the pre-sort upcoming bucket. -/
theorem mem_upcomingPre {now k : Int} {o : Occ} :
    ∀ {occs : List Occ}, (k, o) ∈ upcomingPre now occs ↔
      o ∈ occs ∧ isCurrentB o now = false
        ∧ ∃ s, o.start = some s ∧ now < s ∧ k = s - now := by
  intro occs
  induction occs with
  | nil => simp [upcomingPre]
  | cons p rest ih =>
      cases hcb : isCurrentB p now with
      | true =>
          rw [show upcomingPre now (p :: rest) = upcomingPre now rest by
            simp [upcomingPre, hcb]]
          rw [ih]
          constructor
          · rintro ⟨h1, h2, h3⟩
            exact ⟨List.mem_cons_of_mem _ h1, h2, h3⟩
          · rintro ⟨hmem, hcur, h3⟩
            rcases List.mem_cons.mp hmem with rfl | hmem2
            · rw [hcb] at hcur
              cases hcur
            · exact ⟨hmem2, hcur, h3⟩
      | false =>
          cases hs : p.start with
          | none =>
              rw [show upcomingPre now (p :: rest) = upcomingPre now rest by
                simp [upcomingPre, hcb, hs]]
              rw [ih]
              constructor
              · rintro ⟨h1, h2, h3⟩
                exact ⟨List.mem_cons_of_mem _ h1, h2, h3⟩
              · rintro ⟨hmem, hcur, s, hsome, hrest⟩
                rcases List.mem_cons.mp hmem with rfl | hmem2
                · rw [hs] at hsome
                  cases hsome
                · exact ⟨hmem2, hcur, s, hsome, hrest⟩
          | some s0 =>
              by_cases hlt : now < s0
              · rw [show upcomingPre now (p :: rest)
                      = (s0 - now, p) :: upcomingPre now rest by
                  simp [upcomingPre, hcb, hs, hlt]]
                constructor
                · intro hmem
                  rcases List.mem_cons.mp hmem with heq | hmem2
                  · have hk := congrArg Prod.fst heq
                    have ho := congrArg Prod.snd heq
                    simp only at hk ho
                    subst ho
                    exact ⟨List.mem_cons_self _ _, hcb, s0, hs, hlt, hk⟩
                  · obtain ⟨h1, h2, h3⟩ := ih.mp hmem2
                    exact ⟨List.mem_cons_of_mem _ h1, h2, h3⟩
                · rintro ⟨hmem, hcur, s, hsome, hlt2, hk⟩
                  rcases List.mem_cons.mp hmem with rfl | hmem2
                  · rw [hs] at hsome
                    injection hsome with hse
                    subst hse
                    subst hk
                    exact List.mem_cons_self _ _
                  · exact List.mem_cons_of_mem _
                      (ih.mpr ⟨hmem2, hcur, s, hsome, hlt2, hk⟩)
              · rw [show upcomingPre now (p :: rest) = upcomingPre now rest by
                  simp [upcomingPre, hcb, hs, hlt]]
                rw [ih]
                constructor
                · rintro ⟨h1, h2, h3⟩
                  exact ⟨List.mem_cons_of_mem _ h1, h2, h3⟩
                · rintro ⟨hmem, hcur, s, hsome, hlt2, hk⟩
                  rcases List.mem_cons.mp hmem with rfl | hmem2
                  · rw [hs] at hsome
                    injection hsome with hse
                    subst hse
                    exact absurd hlt2 hlt
                  · exact ⟨hmem2, hcur, s, hsome, hlt2, hk⟩

/-- Membership in the rendered current bucket, projected to occurrences. -/
theorem mem_currentBucket {occs : List Occ} {now : Int} {o : Occ} :
    o ∈ (currentSorted occs now).map (fun p => p.2) ↔
      o ∈ occs ∧ isCurrentB o now = true := by
  rw [List.mem_map]
  constructor
  · rintro ⟨⟨k, o2⟩, hp, rfl⟩
    have := mem_currentPre.mp (mem_sortPairs.mp hp)
    exact ⟨this.1, this.2.1⟩
  · rintro ⟨hmem, hcur⟩
    exact ⟨(endsKey o now, o),
      mem_sortPairs.mpr (mem_currentPre.mpr ⟨hmem, hcur, rfl⟩), rfl⟩

/-- Membership in the rendered upcoming bucket, projected to occurrences. -/
theorem mem_upcomingBucket {occs : List Occ} {now : Int} {o : Occ} :
    o ∈ (upcomingSorted occs now).map (fun p => p.2) ↔
      o ∈ occs ∧ isCurrentB o now = false ∧ ∃ s, o.start = some s ∧ now < s := by
  rw [List.mem_map]
  constructor
  · rintro ⟨⟨k, o2⟩, hp, rfl⟩
    obtain ⟨h1, h2, s, hs, hlt, _⟩ := mem_upcomingPre.mp (mem_sortPairs.mp hp)
    exact ⟨h1, h2, s, hs, hlt⟩
  · rintro ⟨hmem, hcur, s, hs, hlt⟩
    exact ⟨(s - now, o),
      mem_sortPairs.mpr (mem_upcomingPre.mpr ⟨hmem, hcur, s, hs, hlt, rfl⟩), rfl⟩

/-- The Bool current test in Prop form: active-flag-true, or both instants
present and bracketing `now`. -/
theorem isCurrentB_iff {o : Occ} {now : Int} :
    isCurrentB o now = true ↔
      (o.active = some true
        ∨ ∃ s e, o.start = some s ∧ o.endT = some e ∧ s ≤ now ∧ now ≤ e) := by
  unfold isCurrentB
  split
  · rename_i h
    simp [h]
  · rename_i h
    cases hs : o.start with
    | none => simp [hs, h]
    | some s =>
        cases he : o.endT with
        | none => simp [hs, he, h]
        | some e => simp [hs, he, h, and_assoc]

/-! Helper lemmas about the extractor. -/

/-- An occurrence built from a dict item of a container lands in that
container's output. -/
theorem itemsOccs_mem {iso : String → Option Int} {ev item : List (String × PyVal)}
    {o : Occ} :
    ∀ {arr : List PyVal} {os : List Occ}, itemsOccs iso ev arr = .ok os →
      PyVal.dict item ∈ arr → occOfItem iso ev item = .ok o → o ∈ os := by
  intro arr
  induction arr with
  | nil =>
      intro os _ hmem _
      cases hmem
  | cons x rest ih =>
      intro os hok hmem hocc
      rcases List.mem_cons.mp hmem with heq | hmem2
      · subst heq
        rw [itemsOccs] at hok
        rw [hocc] at hok
        cases hr : itemsOccs iso ev rest with
        | error e =>
            rw [hr] at hok
            cases hok
        | ok os2 =>
            rw [hr] at hok
            injection hok with hok
            subst hok
            exact List.mem_cons_self _ _
      · cases x with
        | dict item2 =>
            rw [itemsOccs] at hok
            cases h2 : occOfItem iso ev item2 with
            | error e =>
                rw [h2] at hok
                cases hok
            | ok o2 =>
                rw [h2] at hok
                cases hr : itemsOccs iso ev rest with
                | error e =>
                    rw [hr] at hok
                    cases hok
                | ok os2 =>
                    rw [hr] at hok
                    injection hok with hok
                    subst hok
                    exact List.mem_cons_of_mem _ (ih hr hmem2 hocc)
        | none => exact ih hok hmem2 hocc
        | bool b => exact ih hok hmem2 hocc
        | int n => exact ih hok hmem2 hocc
        | str s => exact ih hok hmem2 hocc
        | list xs => exact ih hok hmem2 hocc

/-- A successful container loop contains each container's own output. -/
theorem containersOccs_mem {iso : String → Option Int} {ev : List (String × PyVal)}
    {arr : List PyVal} :
    ∀ {cs : List (List PyVal)} {os : List Occ}, containersOccs iso ev cs = .ok os →
      arr ∈ cs → ∃ osl, itemsOccs iso ev arr = .ok osl ∧ ∀ x ∈ osl, x ∈ os := by
  intro cs
  induction cs with
  | nil =>
      intro os _ hmem
      cases hmem
  | cons c rest ih =>
      intro os hok hmem
      rw [containersOccs] at hok
      cases hc : itemsOccs iso ev c with
      | error e =>
          rw [hc] at hok
          cases hok
      | ok osc =>
          rw [hc] at hok
          cases hr : containersOccs iso ev rest with
          | error e =>
              rw [hr] at hok
              cases hok
          | ok more =>
              rw [hr] at hok
              injection hok with hok
              subst hok
              rcases List.mem_cons.mp hmem with rfl | hmem2
              · exact ⟨osc, hc, fun x hx => List.mem_append_left _ hx⟩
              · obtain ⟨osl, h1, h2⟩ := ih hr hmem2
                exact ⟨osl, h1, fun x hx => List.mem_append_right _ (h2 x hx)⟩

/-- A list-valued candidate key puts its list among the candidates. -/
theorem mem_evCandidates {ev : List (String × PyVal)} {k : String} {l : List PyVal}
    (hk : k ∈ candidateKeys) (hl : dictGet ev k = .list l) :
    l ∈ evCandidates ev := by
  unfold evCandidates
  refine List.mem_filterMap.mpr ⟨k, hk, ?_⟩
  rw [hl]

/-- With at least one candidate, no self-fallback happens. -/
theorem evContainers_of_mem {ev : List (String × PyVal)} {l : List PyVal}
    (h : l ∈ evCandidates ev) : evContainers ev = evCandidates ev := by
  unfold evContainers
  cases hc : evCandidates ev with
  | nil =>
      rw [hc] at h
      cases h
  | cons a rest => rfl

/-- When no candidate key holds a list, the candidate list is empty. -/
theorem evCandidates_nil {ev : List (String × PyVal)}
    (h : ∀ k ∈ candidateKeys, ∀ l, dictGet ev k ≠ .list l) :
    evCandidates ev = [] := by
  unfold evCandidates
  rw [List.filterMap_eq_nil_iff]
  intro k hk
  cases hd : dictGet ev k with
  | list l => exact absurd hd (h k hk l)
  | none => rfl
  | bool b => rfl
  | int n => rfl
  | str s => rfl
  | dict kvs => rfl

/-- Occurrences surviving dedup come from the input list. -/
theorem dedup_mem {o : Occ} :
    ∀ {seen : List (String × String × Option Int × Option Int)} {l : List Occ},
      o ∈ dedup seen l → o ∈ l := by
  intro seen l
  induction l generalizing seen with
  | nil =>
      intro h
      cases h
  | cons p rest ih =>
      intro h
      simp only [dedup] at h
      split at h
      · exact List.mem_cons_of_mem _ (ih h)
      · rcases List.mem_cons.mp h with rfl | h2
        · exact List.mem_cons_self _ _
        · exact List.mem_cons_of_mem _ (ih h2)

/-- Every occurrence of a successful item loop comes from a dict item of
that container. -/
theorem itemsOccs_src {iso : String → Option Int} {ev : List (String × PyVal)} :
    ∀ {arr : List PyVal} {os : List Occ} {o : Occ}, itemsOccs iso ev arr = .ok os →
      o ∈ os → ∃ item, PyVal.dict item ∈ arr ∧ occOfItem iso ev item = .ok o := by
  intro arr
  induction arr with
  | nil =>
      intro os o hok hmem
      rw [itemsOccs] at hok
      injection hok with hok
      subst hok
      cases hmem
  | cons x rest ih =>
      intro os o hok hmem
      cases x with
      | dict item =>
          rw [itemsOccs] at hok
          cases h2 : occOfItem iso ev item with
          | error e =>
              rw [h2] at hok
              cases hok
          | ok o2 =>
              rw [h2] at hok
              cases hr : itemsOccs iso ev rest with
              | error e =>
                  rw [hr] at hok
                  cases hok
              | ok os2 =>
                  rw [hr] at hok
                  injection hok with hok
                  subst hok
                  rcases List.mem_cons.mp hmem with rfl | hmem2
                  · exact ⟨item, List.mem_cons_self _ _, h2⟩
                  · obtain ⟨item3, hm3, ho3⟩ := ih hr hmem2
                    exact ⟨item3, List.mem_cons_of_mem _ hm3, ho3⟩
      | none =>
          obtain ⟨item3, hm3, ho3⟩ := ih hok hmem
          exact ⟨item3, List.mem_cons_of_mem _ hm3, ho3⟩
      | bool b =>
          obtain ⟨item3, hm3, ho3⟩ := ih hok hmem
          exact ⟨item3, List.mem_cons_of_mem _ hm3, ho3⟩
      | int n =>
          obtain ⟨item3, hm3, ho3⟩ := ih hok hmem
          exact ⟨item3, List.mem_cons_of_mem _ hm3, ho3⟩
      | str s =>
          obtain ⟨item3, hm3, ho3⟩ := ih hok hmem
          exact ⟨item3, List.mem_cons_of_mem _ hm3, ho3⟩
      | list xs =>
          obtain ⟨item3, hm3, ho3⟩ := ih hok hmem
          exact ⟨item3, List.mem_cons_of_mem _ hm3, ho3⟩

/-- Every occurrence of a successful container loop comes from some item. -/
theorem containersOccs_src {iso : String → Option Int} {ev : List (String × PyVal)} :
    ∀ {cs : List (List PyVal)} {os : List Occ} {o : Occ},
      containersOccs iso ev cs = .ok os → o ∈ os →
      ∃ item, occOfItem iso ev item = .ok o := by
  intro cs
  induction cs with
  | nil =>
      intro os o hok hmem
      rw [containersOccs] at hok
      injection hok with hok
      subst hok
      cases hmem
  | cons c rest ih =>
      intro os o hok hmem
      rw [containersOccs] at hok
      cases hc : itemsOccs iso ev c with
      | error e =>
          rw [hc] at hok
          cases hok
      | ok osc =>
          rw [hc] at hok
          cases hr : containersOccs iso ev rest with
          | error e =>
              rw [hr] at hok
              cases hok
          | ok more =>
              rw [hr] at hok
              injection hok with hok
              subst hok
              rcases List.mem_append.mp hmem with h1 | h2
              · obtain ⟨item, _, ho⟩ := itemsOccs_src hc h1
                exact ⟨item, ho⟩
              · exact ih hr h2

/-- Every occurrence of a successful event loop was built by `occOfItem`
from some event dict and some item. -/
theorem eventsOccs_src {iso : String → Option Int} :
    ∀ {evs : List PyVal} {os : List Occ} {o : Occ}, eventsOccs iso evs = .ok os →
      o ∈ os → ∃ ev item, occOfItem iso ev item = .ok o := by
  intro evs
  induction evs with
  | nil =>
      intro os o hok hmem
      rw [eventsOccs] at hok
      injection hok with hok
      subst hok
      cases hmem
  | cons x rest ih =>
      intro os o hok hmem
      cases x with
      | dict ev =>
          rw [eventsOccs] at hok
          cases hc : evOccs iso ev with
          | error e =>
              rw [hc] at hok
              cases hok
          | ok osc =>
              rw [hc] at hok
              cases hr : eventsOccs iso rest with
              | error e =>
                  rw [hr] at hok
                  cases hok
              | ok more =>
                  rw [hr] at hok
                  injection hok with hok
                  subst hok
                  rcases List.mem_append.mp hmem with h1 | h2
                  · obtain ⟨item, ho⟩ := containersOccs_src hc h1
                    exact ⟨ev, item, ho⟩
                  · exact ih hr h2
      | none => exact ih hok hmem
      | bool b => exact ih hok hmem
      | int n => exact ih hok hmem
      | str s => exact ih hok hmem
      | list xs => exact ih hok hmem

/-- The field contents of an occurrence built by `occOfItem`: the event name
is `str()` of the name fallback chain, the map defaults to `Unknown Map`
exactly when the resolved map value is falsy, and the active flag is the
truthiness of the first non-None active key (or unknown). -/
theorem occOfItem_fields {iso : String → Option Int} {ev item : List (String × PyVal)}
    {o : Occ} (h : occOfItem iso ev item = .ok o) :
    o.event = pyStr (eventNameVal ev)
    ∧ o.map = (if pyTruthy (mapFixed ev item) then pyStr (mapFixed ev item)
               else "Unknown Map")
    ∧ o.active = (if isNoneV (activeRaw item) then Option.none
                  else some (pyTruthy (activeRaw item))) := by
  unfold occOfItem at h
  cases h1 : parseChain iso item ["start", "startAt", "startsAt", "nextStart"] with
  | error e =>
      rw [h1] at h
      cases h
  | ok s =>
      rw [h1] at h
      cases h2 : parseChain iso item ["end", "endAt", "endsAt", "nextEnd"] with
      | error e =>
          rw [h2] at h
          cases h
      | ok e2 =>
          rw [h2] at h
          injection h with h
          subst h
          exact ⟨rfl, rfl, rfl⟩

/-! Helper lemma about the persisted state record. -/

/-- Setting one key leaves every other key's binding unchanged. -/
theorem dictFind_pySetItem_ne {k k0 : String} (hne : k ≠ k0) :
    ∀ (st : List (String × PyVal)) (v : PyVal),
      dictFind (pySetItem st k0 v) k = dictFind st k := by
  intro st v
  induction st with
  | nil => simp [pySetItem, dictFind, Ne.symm hne]
  | cons p rest ih =>
      simp only [pySetItem]
      split
      · rename_i hp
        have hnk : ¬ (p.1 = k) := fun hh => hne (hh.symm.trans hp)
        simp only [dictFind, if_neg hnk]
      · simp only [dictFind]
        by_cases hpk : p.1 = k
        · simp [hpk]
        · simp only [if_neg hpk]
          exact ih

/-! The claims. -/

/-- C1: for every occurrence list and evaluation instant `now`,
`build_digest` places an occurrence in the current bucket iff its active
flag is true, or its start and end are both present and start ≤ now ≤ end;
it places it in the upcoming bucket iff it is not current, its start is
present, and start > now; every other occurrence is in neither bucket. -/
theorem c1_buckets (occs : List Occ) (now : Int) (o : Occ) (h : o ∈ occs) :
    (o ∈ (currentSorted occs now).map (fun p => p.2) ↔
        (o.active = some true
          ∨ ∃ s e, o.start = some s ∧ o.endT = some e ∧ s ≤ now ∧ now ≤ e))
    ∧ (o ∈ (upcomingSorted occs now).map (fun p => p.2) ↔
        (¬(o.active = some true
            ∨ ∃ s e, o.start = some s ∧ o.endT = some e ∧ s ≤ now ∧ now ≤ e)
          ∧ ∃ s, o.start = some s ∧ now < s)) := by
  constructor
  · rw [mem_currentBucket, isCurrentB_iff]
    simp [h]
  · rw [mem_upcomingBucket, ← isCurrentB_iff]
    constructor
    · rintro ⟨_, hfalse, hs⟩
      refine ⟨?_, hs⟩
      rw [hfalse]
      simp
    · rintro ⟨hnot, hs⟩
      refine ⟨h, ?_, hs⟩
      cases hcur : isCurrentB o now
      · rfl
      · exact absurd hcur hnot

/-- C1 witness: a windowed occurrence lands in the current bucket. -/
theorem c1_buckets_witness :
    (⟨"E", "M", Option.none, some 0, some 100⟩ : Occ) ∈
      (currentSorted [⟨"E", "M", Option.none, some 0, some 100⟩] 50).map
        (fun p => p.2) :=
  (c1_buckets [⟨"E", "M", Option.none, some 0, some 100⟩] 50
      ⟨"E", "M", Option.none, some 0, some 100⟩ (by decide)).1.mpr
    (Or.inr ⟨0, 100, rfl, rfl, by decide, by decide⟩)

/-- C2 counterexample: an occurrence with a known end 10^9 + 50 seconds away
ranks after a no-end occurrence (whose sentinel key is 10^9), so a no-end
occurrence does not rank after all occurrences that have an end instant. -/
theorem c2_counterexample :
    (currentSorted
        [⟨"B", "M", Option.none, some 0, some 1000000050⟩,
         ⟨"A", "M", some true, Option.none, Option.none⟩] 0).map (fun p => p.2)
      = [⟨"A", "M", some true, Option.none, Option.none⟩,
         ⟨"B", "M", Option.none, some 0, some 1000000050⟩]
    ∧ (⟨"A", "M", some true, Option.none, Option.none⟩ : Occ).endT = Option.none
    ∧ (⟨"B", "M", Option.none, some 0, some 1000000050⟩ : Occ).endT
        = some 1000000050 := by
  refine ⟨?_, rfl, rfl⟩
  decide

/-- C2 amended claim: the rendered current section is ordered ascending by
sort key, where the key of an occurrence with an end instant is its
remaining seconds (end − now) and the key of a no-end occurrence is the
constant sentinel 10^9; hence a no-end occurrence ranks after every
occurrence whose remaining time is below 10^9 seconds, but before one whose
remaining time exceeds the sentinel. -/
theorem c2_rank (occs : List Occ) (now : Int) :
    (currentSorted occs now).Pairwise (fun a b => a.1 ≤ b.1)
    ∧ ∀ p, p ∈ currentSorted occs now →
        (p.2.endT = Option.none → p.1 = 1000000000)
        ∧ ∀ e, p.2.endT = some e → p.1 = e - now := by
  refine ⟨sorted_sortPairs, ?_⟩
  rintro ⟨k, o⟩ hp
  have hk := (mem_currentPre.mp (mem_sortPairs.mp hp)).2.2
  constructor
  · intro hnone
    have hnone2 : o.endT = Option.none := hnone
    rw [hk]
    simp [endsKey, hnone2]
  · intro e he
    have he2 : o.endT = some e := he
    rw [hk]
    simp [endsKey, he2]

/-- C2 witness: the key of a windowed occurrence is its remaining time. -/
theorem c2_rank_witness :
    ((100 : Int), (⟨"E", "M", Option.none, some 0, some 100⟩ : Occ)).1
      = 100 - 0 :=
  ((c2_rank [⟨"E", "M", Option.none, some 0, some 100⟩] 0).2
      (100, ⟨"E", "M", Option.none, some 0, some 100⟩) (by decide)).2 100 rfl

/-- C3: when the report hash equals the persisted `last_digest_hash` the run
suppresses the notification (and re-saves the unchanged record); when it
differs and the send succeeds, the run notifies and persists the new hash;
when it differs and the send fails, the run aborts before saving, so the
previously persisted hash remains on disk. -/
theorem c3_gate (h : String → String) (st : List (String × PyVal))
    (digest : String) (sendOk : Bool) :
    (pyEqSomeStr (dictFind st "last_digest_hash") (h digest) = true →
        mainGate h st digest sendOk = .ok (false, st))
    ∧ (pyEqSomeStr (dictFind st "last_digest_hash") (h digest) = false →
        sendOk = true →
        mainGate h st digest sendOk =
          .ok (true, pySetItem st "last_digest_hash" (.str (h digest))))
    ∧ (pyEqSomeStr (dictFind st "last_digest_hash") (h digest) = false →
        sendOk = false → mainGate h st digest sendOk = .error ()) := by
  refine ⟨?_, ?_, ?_⟩
  · intro h1
    simp [mainGate, h1]
  · intro h1 h2
    simp [mainGate, h1, h2]
  · intro h1 h2
    simp [mainGate, h1, h2]

/-- C3 witness: all three branches at concrete inputs. -/
theorem c3_gate_witness :
    mainGate (fun s => s) [("last_digest_hash", PyVal.str "x")] "x" false
      = .ok (false, [("last_digest_hash", PyVal.str "x")])
    ∧ mainGate (fun s => s) [] "y" true
      = .ok (true, pySetItem [] "last_digest_hash" (.str "y"))
    ∧ mainGate (fun s => s) [] "y" false = .error () :=
  ⟨(c3_gate (fun s => s) [("last_digest_hash", PyVal.str "x")] "x" false).1 rfl,
   (c3_gate (fun s => s) [] "y" true).2.1 rfl rfl,
   (c3_gate (fun s => s) [] "y" false).2.2 rfl rfl⟩

/-- C4: `build_digest` is a pure function of the occurrence list and the
evaluation instant (the source's internal `datetime.now` reading): two
invocations with identical occurrences and the same now produce
byte-identical report text. -/
theorem c4_pure (fmtL : Int → String) (occs1 occs2 : List Occ)
    (now1 now2 : Int) (h1 : occs1 = occs2) (h2 : now1 = now2) :
    build_digest fmtL occs1 now1 = build_digest fmtL occs2 now2 := by
  rw [h1, h2]

/-- C4 witness: the determinism theorem at a concrete input. -/
theorem c4_pure_witness :
    build_digest (fun _ => "") [⟨"E", "M", some true, Option.none, Option.none⟩] 0
      = build_digest (fun _ => "")
          [⟨"E", "M", some true, Option.none, Option.none⟩] 0 :=
  c4_pure (fun _ => "") _ _ 0 0 rfl rfl

/-- C5: every expanded daily-schedule occurrence has end strictly greater
than start — when the end computed from a valid HH:MM pair is ≤ the start,
24 hours are added to the end. -/
theorem c5_wrap (day : Int) (sh sm eh em : Nat) (h1 : sh < 24) (h2 : sm < 60)
    (h3 : eh < 24) (h4 : em < 60) :
    (expandPair day sh sm eh em).1 < (expandPair day sh sm eh em).2 := by
  unfold expandPair clockTimeOnDay
  dsimp only
  split <;> omega

/-- C5 witness: start 22:00, end 02:00 expands to a next-day end. -/
theorem c5_wrap_witness :
    (expandPair 0 22 0 2 0).1 < (expandPair 0 22 0 2 0).2
    ∧ (expandPair 0 22 0 2 0).1 = 79200
    ∧ (expandPair 0 22 0 2 0).2 = 93600 :=
  ⟨c5_wrap 0 22 0 2 0 (by decide) (by decide) (by decide) (by decide),
   by decide, by decide⟩

/-- C6 counterexample: an event whose `maps` and `schedule` keys both hold
lists emits occurrences from both containers, not only from the first
present key — the map names "A" and "B" both appear in the output. -/
theorem c6_counterexample :
    extract_occurrences (fun _ => Option.none)
        (.list [.dict [("name", .str "E"),
                       ("maps", .list [.dict [("map", .str "A")]]),
                       ("schedule", .list [.dict [("map", .str "B")]])]])
      = .ok [⟨"E", "A", Option.none, Option.none, Option.none⟩,
             ⟨"E", "B", Option.none, Option.none, Option.none⟩] := rfl

/-- C6 amended claim: the extractor collects every key among maps,
instances, schedule, timers, occurrences whose value is a list and emits
occurrences from all of those containers; only when none of those keys
holds a list is the event object itself used as a single-item container. -/
theorem c6_all_containers (iso : String → Option Int)
    (ev : List (String × PyVal)) :
    ((∀ k ∈ candidateKeys, ∀ l, dictGet ev k ≠ .list l) →
        evOccs iso ev = itemsOccs iso ev [.dict ev])
    ∧ ∀ k l item o os, k ∈ candidateKeys → dictGet ev k = .list l →
        PyVal.dict item ∈ l → occOfItem iso ev item = .ok o →
        evOccs iso ev = .ok os → o ∈ os := by
  constructor
  · intro hnone
    have hc : evCandidates ev = [] := evCandidates_nil hnone
    unfold evOccs evContainers
    rw [hc]
    simp only [containersOccs]
    cases h1 : itemsOccs iso ev [.dict ev] with
    | error e => rfl
    | ok os => simp
  · intro k l item o os hk hl hmem hocc hok
    have hcand := mem_evCandidates hk hl
    have hcont := evContainers_of_mem hcand
    unfold evOccs at hok
    rw [hcont] at hok
    obtain ⟨osl, hosl, hsub⟩ := containersOccs_mem hok hcand
    exact hsub o (itemsOccs_mem hosl hmem hocc)

/-- C6 witness: the second matching container's item reaches the output. -/
theorem c6_all_containers_witness :
    (⟨"E", "B", Option.none, Option.none, Option.none⟩ : Occ) ∈
      [(⟨"E", "A", Option.none, Option.none, Option.none⟩ : Occ),
       ⟨"E", "B", Option.none, Option.none, Option.none⟩] :=
  (c6_all_containers (fun _ => Option.none)
      [("name", .str "E"),
       ("maps", .list [.dict [("map", .str "A")]]),
       ("schedule", .list [.dict [("map", .str "B")]])]).2
    "schedule" [.dict [("map", .str "B")]] [("map", .str "B")]
    ⟨"E", "B", Option.none, Option.none, Option.none⟩
    [⟨"E", "A", Option.none, Option.none, Option.none⟩,
     ⟨"E", "B", Option.none, Option.none, Option.none⟩]
    (by decide) rfl (List.mem_cons_self _ _) rfl rfl

/-- C7 counterexample: `parse_dt` of the out-of-range epoch number 10^18
raises (`datetime.fromtimestamp` is outside the try/except), refuting that
it never raises for any number. -/
theorem c7_counterexample :
    parse_dt (fun _ => Option.none) (.int 1000000000000000000) = .error () := rfl

/-- C7 amended claim: `parse_dt` never raises for `None`, strings (the ISO
branch is fully wrapped in try/except), booleans, lists or dicts, and for
integer epoch numbers whose ms-adjusted value lies inside the representable
datetime range it returns that instant; but an integer whose ms-adjusted
value falls outside the range [minEpoch, maxEpoch] raises. -/
theorem c7_total (iso : String → Option Int) :
    (∀ s, parse_dt iso (.str s) = .ok (iso (zFix s.trim)))
    ∧ parse_dt iso .none = .ok Option.none
    ∧ (∀ b, parse_dt iso (.bool b) = .ok (some (if b then 1 else 0)))
    ∧ (∀ xs, parse_dt iso (.list xs) = .ok Option.none)
    ∧ (∀ kvs, parse_dt iso (.dict kvs) = .ok Option.none)
    ∧ (∀ n : Int, minEpoch ≤ msAdjust n → msAdjust n ≤ maxEpoch →
        parse_dt iso (.int n) = .ok (some (msAdjust n)))
    ∧ (∀ n : Int, msAdjust n < minEpoch ∨ maxEpoch < msAdjust n →
        parse_dt iso (.int n) = .error ()) := by
  refine ⟨fun s => rfl, rfl, fun b => rfl, fun xs => rfl, fun kvs => rfl,
    ?_, ?_⟩
  · intro n hlo hhi
    simp only [parse_dt]
    rw [if_neg (by omega)]
  · intro n hout
    simp only [parse_dt]
    rw [if_pos (by omega)]

/-- C7 witness: an in-range second count parses; an out-of-range one raises. -/
theorem c7_total_witness :
    parse_dt (fun _ => Option.none) (.int 5) = .ok (some (msAdjust 5))
    ∧ parse_dt (fun _ => Option.none) (.int 1000000000000000000) = .error () :=
  ⟨(c7_total (fun _ => Option.none)).2.2.2.2.2.1 5 (by decide) (by decide),
   (c7_total (fun _ => Option.none)).2.2.2.2.2.2 1000000000000000000
     (by decide)⟩

/-- C8 counterexample: an occurrence with active = false whose window brackets
`now` is placed in the current bucket, refuting that a false flag suppresses
time-window inference. -/
theorem c8_counterexample :
    (⟨"E", "M", some false, some 0, some 100⟩ : Occ) ∈
        (currentSorted [⟨"E", "M", some false, some 0, some 100⟩] 50).map
          (fun p => p.2)
    ∧ (⟨"E", "M", some false, some 0, some 100⟩ : Occ).active = some false := by
  refine ⟨?_, rfl⟩
  decide

/-- C8 amended claim: the false active flag does not override the time
window — an occurrence with active = false is current exactly when its start
and end are both present and bracket `now`, the same rule as for an unknown
flag; only active = true overrides the window. -/
theorem c8_false_window (occs : List Occ) (now : Int) (o : Occ)
    (hmem : o ∈ occs) (hfl : o.active = some false) :
    o ∈ (currentSorted occs now).map (fun p => p.2) ↔
      ∃ s e, o.start = some s ∧ o.endT = some e ∧ s ≤ now ∧ now ≤ e := by
  rw [mem_currentBucket, isCurrentB_iff]
  simp [hmem, hfl]

/-- C8 witness: the amended rule at a concrete false-flag occurrence. -/
theorem c8_false_window_witness :
    (⟨"F", "M", some false, some 10, some 90⟩ : Occ) ∈
      (currentSorted [⟨"F", "M", some false, some 10, some 90⟩] 50).map
        (fun p => p.2) :=
  (c8_false_window [⟨"F", "M", some false, some 10, some 90⟩] 50
      ⟨"F", "M", some false, some 10, some 90⟩ (by decide) rfl).mpr
    ⟨10, 90, rfl, rfl, by decide, by decide⟩

/-- C9: a completed digest run saves the record loaded at run start with at
most its own `last_digest_hash` key modified, and a harvester run saves it
with at most its own `harvester_active` key modified; every other key keeps
the binding it was loaded with, so neither process erases the other's
field. -/
theorem c9_frame (h : String → String) (st : List (String × PyVal))
    (digest : String) (sendOk activeNow : Bool) (k : String) :
    (∀ sent st2, mainGate h st digest sendOk = .ok (sent, st2) →
        k ≠ "last_digest_hash" → dictFind st2 k = dictFind st k)
    ∧ (k ≠ "harvester_active" →
        dictFind (harvesterRun st activeNow).2 k = dictFind st k) := by
  constructor
  · intro sent st2 hok hne
    unfold mainGate at hok
    by_cases hc : pyEqSomeStr (dictFind st "last_digest_hash") (h digest) = true
    · rw [if_pos hc] at hok
      injection hok with hok
      have h2 := congrArg Prod.snd hok
      simp only at h2
      rw [← h2]
    · rw [if_neg hc] at hok
      by_cases hs : sendOk = true
      · rw [if_pos hs] at hok
        injection hok with hok
        have h2 := congrArg Prod.snd hok
        simp only at h2
        rw [← h2]
        exact dictFind_pySetItem_ne hne st _
      · rw [if_neg hs] at hok
        cases hok
  · intro hne
    simp only [harvesterRun]
    exact dictFind_pySetItem_ne hne st _

/-- C9 witness: both runs preserve an unrelated key at concrete inputs. -/
theorem c9_frame_witness :
    dictFind (pySetItem [("other", PyVal.int 1)] "last_digest_hash"
        (.str "d")) "other"
      = dictFind [("other", PyVal.int 1)] "other"
    ∧ dictFind (harvesterRun [("other", PyVal.int 1)] true).2 "other"
      = dictFind [("other", PyVal.int 1)] "other" :=
  ⟨(c9_frame (fun _ => "d") [("other", PyVal.int 1)] "x" true true "other").1
      true (pySetItem [("other", PyVal.int 1)] "last_digest_hash" (.str "d"))
      rfl (by decide),
   (c9_frame (fun _ => "d") [("other", PyVal.int 1)] "x" true true "other").2
      (by decide)⟩

/-- C10: every occurrence emitted by `extract_occurrences` was built by
`occOfItem` from some event dict and some item; its event name is `str()`
of the name fallback chain (a string), its map name is `str()` of the
resolved map value or the default "Unknown Map" exactly when that value is
absent or falsy, and its active field is unknown when no active key is
present and otherwise the truthiness coercion of the first present active
key — so a truthy non-boolean such as the string "false" yields true. -/
theorem c10_fields (iso : String → Option Int) (payload : PyVal)
    (occs : List Occ) (hok : extract_occurrences iso payload = .ok occs)
    (o : Occ) (ho : o ∈ occs) :
    ∃ ev item, occOfItem iso ev item = .ok o
      ∧ o.event = pyStr (eventNameVal ev)
      ∧ o.map = (if pyTruthy (mapFixed ev item) then pyStr (mapFixed ev item)
                 else "Unknown Map")
      ∧ o.active = (if isNoneV (activeRaw item) then Option.none
                    else some (pyTruthy (activeRaw item))) := by
  cases payload with
  | list evs =>
      have hok2 : Except.map (dedup []) (eventsOccs iso evs) = .ok occs := hok
      cases he : eventsOccs iso evs with
      | error e =>
          rw [he] at hok2
          cases hok2
      | ok pre =>
          rw [he] at hok2
          simp only [Except.map] at hok2
          injection hok2 with hok2
          subst hok2
          obtain ⟨ev, item, hi⟩ := eventsOccs_src he (dedup_mem ho)
          obtain ⟨h1, h2, h3⟩ := occOfItem_fields hi
          exact ⟨ev, item, hi, h1, h2, h3⟩
  | none =>
      have hok2 : (Except.ok [] : Except Unit (List Occ)) = .ok occs := hok
      injection hok2 with hok2
      subst hok2
      cases ho
  | bool b =>
      have hok2 : (Except.ok [] : Except Unit (List Occ)) = .ok occs := hok
      injection hok2 with hok2
      subst hok2
      cases ho
  | int n =>
      have hok2 : (Except.ok [] : Except Unit (List Occ)) = .ok occs := hok
      injection hok2 with hok2
      subst hok2
      cases ho
  | str s =>
      have hok2 : (Except.ok [] : Except Unit (List Occ)) = .ok occs := hok
      injection hok2 with hok2
      subst hok2
      cases ho
  | dict kvs =>
      have hok2 : (Except.ok [] : Except Unit (List Occ)) = .ok occs := hok
      injection hok2 with hok2
      subst hok2
      cases ho

/-- C10 witness: a self-fallback event with `active = "false"` (a truthy
non-boolean) yields map "Unknown Map" and active = true. -/
theorem c10_fields_witness :
    ∃ ev item, occOfItem (fun _ => Option.none) ev item
        = .ok (⟨"E", "Unknown Map", some true, Option.none, Option.none⟩ : Occ)
      ∧ (⟨"E", "Unknown Map", some true, Option.none, Option.none⟩ : Occ).event
          = pyStr (eventNameVal ev)
      ∧ (⟨"E", "Unknown Map", some true, Option.none, Option.none⟩ : Occ).map
          = (if pyTruthy (mapFixed ev item) then pyStr (mapFixed ev item)
             else "Unknown Map")
      ∧ (⟨"E", "Unknown Map", some true, Option.none, Option.none⟩ : Occ).active
          = (if isNoneV (activeRaw item) then Option.none
             else some (pyTruthy (activeRaw item))) :=
  c10_fields (fun _ => Option.none)
    (.list [.dict [("name", .str "E"), ("active", .str "false")]])
    [⟨"E", "Unknown Map", some true, Option.none, Option.none⟩] rfl
    ⟨"E", "Unknown Map", some true, Option.none, Option.none⟩
    (List.mem_cons_self _ _)

end ArcEvents
